import Mathlib

/-!
Verification of the text-to-speech audio codec and UI pipeline
(`adarshmasaliya/texttospeech`).

The repository's `utils/audioUtils` module (`decode`, `decodeAudioData`,
`encodeWav`) is not present in the sources; only its caller `App`
(`handleGenerateAudio`) and `services/geminiService` are.  The codec
definitions below are therefore modelled from the specification's §4.2/§4.3
contracts, while `handleGenerateAudio` and `generateSpeech` are embedded
directly from the source.

Bytes are `ℕ` values understood modulo 256; float samples are `ℚ` values,
with a dedicated constructor for NaN where the spec distinguishes it.
-/

namespace TTS

/-- A float sample value: either NaN or a rational value.  (The codec's
quantization policy treats NaN specially, so it is modelled explicitly.) -/
inductive FVal where
  | nan : FVal
  | val : ℚ → FVal
deriving DecidableEq

/-- Modelled from the spec: clamp a sample value to the closed range
[-1.0, 1.0] (WAV Encoder quantization, §4.3). -/
def clampUnit (q : ℚ) : ℚ := max (-1) (min 1 q)

/-- Modelled from the spec: per-sample quantization of the WAV Encoder
(§4.3, code `encodeWav` missing from src): clamp to [-1, 1] with NaN
treated as 0.0, then compute `round(f * 32767)`. -/
def quantize : FVal → ℤ
  | .nan => 0
  | .val q => round (clampUnit q * 32767)

/-- Little-endian encoding of an unsigned 16-bit value as two bytes. -/
def u16le (n : ℕ) : List ℕ := [n % 256, n / 256 % 256]

/-- Little-endian encoding of an unsigned 32-bit value as four bytes. -/
def u32le (n : ℕ) : List ℕ :=
  [n % 256, n / 256 % 256, n / 2 ^ 16 % 256, n / 2 ^ 24 % 256]

/-- Little-endian two's-complement encoding of a signed 16-bit value. -/
def i16le (v : ℤ) : List ℕ := u16le (v % 65536).toNat

/-- Modelled from the spec: the fixed 44-byte RIFF/WAVE header of §4.3
(code `encodeWav` missing from src), for mono 16-bit PCM with the given
sample rate and data size. -/
def wavHeader (sampleRate dataSize : ℕ) : List ℕ :=
  [0x52, 0x49, 0x46, 0x46] ++          -- "RIFF"
  u32le (36 + dataSize) ++             -- ChunkSize
  [0x57, 0x41, 0x56, 0x45] ++          -- "WAVE"
  [0x66, 0x6D, 0x74, 0x20] ++          -- "fmt "
  u32le 16 ++                          -- Subchunk1Size
  u16le 1 ++                           -- AudioFormat (linear PCM)
  u16le 1 ++                           -- NumChannels (mono)
  u32le sampleRate ++                  -- SampleRate
  u32le (sampleRate * 2) ++            -- ByteRate = sampleRate * 1 * 2
  u16le 2 ++                           -- BlockAlign
  u16le 16 ++                          -- BitsPerSample
  [0x64, 0x61, 0x74, 0x61] ++          -- "data"
  u32le dataSize                       -- Subchunk2Size

/-- The quantized PCM payload: each sample, quantized and emitted as a
signed 16-bit little-endian integer. -/
def pcmData : List FVal → List ℕ
  | [] => []
  | f :: rest => i16le (quantize f) ++ pcmData rest

/-- Modelled from the spec: `encodeWav` (WAV Encoder, §4.3; code missing
from src): 44-byte header immediately followed by `2 * length(samples)`
bytes of quantized PCM data. -/
def encodeWav (samples : List FVal) (sampleRate : ℕ) : List ℕ :=
  wavHeader sampleRate (2 * samples.length) ++ pcmData samples

/-- Decode two bytes as a little-endian signed 16-bit integer. -/
def i16dec (b0 b1 : ℕ) : ℤ :=
  let u : ℕ := b0 % 256 + 256 * (b1 % 256)
  if u < 32768 then (u : ℤ) else (u : ℤ) - 65536

/-- Modelled from the spec: normalization of one decoded 16-bit sample
(PCM Interpreter, §4.2): `v / 32768.0`. -/
def sampleOf (b0 b1 : ℕ) : ℚ := (i16dec b0 b1 : ℚ) / 32768

/-- Modelled from the spec: the PCM Interpreter's sample extraction
(§4.2, code `decodeAudioData` missing from src): consume the byte
sequence two bytes at a time as little-endian signed 16-bit integers,
normalizing each; a trailing odd byte is discarded. -/
def pcmSamples : List ℕ → List ℚ
  | b0 :: b1 :: rest => sampleOf b0 b1 :: pcmSamples rest
  | _ => []

/-- The PCM Interpreter's failure type (§7): invalid format parameters. -/
inductive FormatError where
  | invalidParams : FormatError
deriving DecidableEq

/-- Modelled from the spec: `interpret` alias `decodeAudioData` (§4.2,
code missing from src): signals a `FormatError` when `sampleRate <= 0`
or `channelCount < 1`, otherwise produces the normalized sample buffer
(the playable buffer receives the same values on channel 0, so the
sample list stands for both outputs). -/
def interpret (bytes : List ℕ) (sampleRate : ℤ) (channelCount : ℤ) :
    Except FormatError (List ℚ) :=
  if sampleRate ≤ 0 ∨ channelCount < 1 then .error .invalidParams
  else .ok (pcmSamples bytes)

/-- The `AudioData` aggregate of `types.ts` (spec: AudioArtifact): the
playable buffer (represented by its channel-0 sample content) paired
with the WAV blob bytes. -/
structure AudioArtifact where
  buffer : List ℚ
  blob : List ℕ
deriving DecidableEq

/-- The `App` component state touched by `handleGenerateAudio`:
`audioData`, `error`, `isLoading`, `isPlaying`. -/
structure AppState where
  audioData : Option AudioArtifact
  error : Option String
  isLoading : Bool
  isPlaying : Bool
deriving DecidableEq

/-- The message of a caught `FormatError` (`err.message` in the catch
branch); its content is not observed by any claim. -/
def formatErrorMessage : FormatError → String
  | .invalidParams => "FormatError"

/-- Embedding of `handleGenerateAudio` (App, lines 48–71): stop
playback, set loading, clear error and audio data, then run the
pipeline `generateSpeech`/`decode` (its combined outcome is the
`genResult` argument), the early return when the audio context is
missing (`hasCtx`), `decodeAudioData` at the product constants
`SAMPLE_RATE = 24000`, `channelCount = 1`, and `encodeWav` on channel 0
of the decoded buffer; a caught error is recorded in `error`; `finally`
clears `isLoading`. -/
def handleGenerateAudio (hasCtx : Bool) (genResult : Except String (List ℕ))
    (st : AppState) : AppState :=
  let stStart : AppState :=
    { st with isPlaying := false, isLoading := true,
              error := none, audioData := none }
  let stTried : AppState :=
    match genResult with
    | .error msg => { stStart with error := some msg }
    | .ok audioBytes =>
      if hasCtx then
        match interpret audioBytes 24000 1 with
        | .error e => { stStart with error := some (formatErrorMessage e) }
        | .ok samples =>
          { stStart with
              audioData :=
                some ⟨samples, encodeWav (samples.map FVal.val) 24000⟩,
              isPlaying := true }
      else stStart
  { stTried with isLoading := false }

/-- The error message thrown by `generateSpeech` on blank input
(geminiService, line 15). -/
def emptyInputMessage : String := "Input text cannot be empty."

/-- The generic error message rethrown by `generateSpeech`'s catch
block (geminiService, line 41). -/
def genericFailureMessage : String :=
  "Failed to generate audio. Please check your input and try again."

/-- The guard `!text.trim()` of `generateSpeech`: a string trims to the
empty string exactly when every character is whitespace. -/
def isBlank (text : String) : Bool := text.data.all Char.isWhitespace

/-- Embedding of `generateSpeech` (geminiService, lines 13–43): blank
input (empty after `trim`, i.e. all-whitespace) throws
`emptyInputMessage` outside the `try`; inside the `try`, the remote
call (`api`, which may throw or yield an absent `inlineData.data`
chain, modelled as `Option`) is made, an absent or empty (falsy)
payload throws "No audio data received from API.", and any error
thrown inside the `try` is replaced by `genericFailureMessage`. -/
def generateSpeech (text voice : String)
    (api : String → String → Except String (Option String)) :
    Except String String :=
  if isBlank text then .error emptyInputMessage
  else
    match api text voice with
    | .error _ => .error genericFailureMessage
    | .ok none => .error genericFailureMessage
    | .ok (some b64) =>
      if b64 = "" then .error genericFailureMessage else .ok b64

/-! ### Helper lemmas -/

theorem pcmData_length (s : List FVal) : (pcmData s).length = 2 * s.length := by
  induction s with
  | nil => rfl
  | cons f rest ih =>
    simp only [pcmData, i16le, u16le, List.length_append, List.length_cons,
      List.length_nil, ih]
    omega

theorem quantize_half : quantize (.val 2⁻¹) = 16384 := by
  norm_num [quantize, clampUnit, round_eq]

theorem clampUnit_bounds (q : ℚ) : -1 ≤ clampUnit q ∧ clampUnit q ≤ 1 := by
  constructor
  · exact le_max_left _ _
  · exact max_le (by norm_num) (min_le_left _ _)

theorem quantize_range (g : FVal) : -32768 ≤ quantize g ∧ quantize g ≤ 32767 := by
  cases g with
  | nan => simp [quantize]
  | val q =>
    obtain ⟨hl, hu⟩ := clampUnit_bounds q
    have hl32 : (-32767 : ℚ) ≤ clampUnit q * 32767 := by nlinarith
    have hu32 : clampUnit q * 32767 ≤ 32767 := by nlinarith
    have h1 : (quantize (.val q) : ℚ) ≤ clampUnit q * 32767 + 1 / 2 := by
      simpa [quantize] using round_le_add_half (clampUnit q * 32767)
    have h2 : clampUnit q * 32767 - 1 / 2 < (quantize (.val q) : ℚ) := by
      simpa [quantize] using sub_half_lt_round (clampUnit q * 32767)
    have hub : (quantize (.val q) : ℚ) < 32768 := by linarith
    have hlb : (-32768 : ℚ) < (quantize (.val q) : ℚ) := by linarith
    constructor
    · exact_mod_cast hlb.le
    · have : quantize (.val q) < 32768 := by exact_mod_cast hub
      omega

/-- Two-at-a-time induction principle matching `pcmSamples`' recursion. -/
theorem pcm_two_step {P : List ℕ → Prop} (h0 : P []) (h1 : ∀ a, P [a])
    (h2 : ∀ a b l, P l → P (a :: b :: l)) : ∀ l, P l
  | [] => h0
  | [a] => h1 a
  | a :: b :: l => h2 a b l (pcm_two_step h0 h1 h2 l)

theorem i16dec_range (b0 b1 : ℕ) :
    -32768 ≤ i16dec b0 b1 ∧ i16dec b0 b1 ≤ 32767 := by
  simp only [i16dec]
  split <;> constructor <;> omega

theorem sampleOf_range (b0 b1 : ℕ) :
    -1 ≤ sampleOf b0 b1 ∧ sampleOf b0 b1 ≤ 32767 / 32768 := by
  obtain ⟨hl, hu⟩ := i16dec_range b0 b1
  have hl' : (-32768 : ℚ) ≤ (i16dec b0 b1 : ℚ) := by exact_mod_cast hl
  have hu' : (i16dec b0 b1 : ℚ) ≤ 32767 := by exact_mod_cast hu
  constructor
  · rw [sampleOf, show (-1 : ℚ) = -32768 / 32768 by norm_num,
      div_le_div_iff_of_pos_right (by norm_num : (0 : ℚ) < 32768)]
    exact hl'
  · rw [sampleOf, div_le_div_iff_of_pos_right (by norm_num : (0 : ℚ) < 32768)]
    exact hu'

theorem mem_pcmSamples_range (bytes : List ℕ) (q : ℚ)
    (h : q ∈ pcmSamples bytes) : -1 ≤ q ∧ q ≤ 32767 / 32768 := by
  induction bytes using pcm_two_step with
  | h0 => simp [pcmSamples] at h
  | h1 a => simp [pcmSamples] at h
  | h2 a c l ih =>
    rw [pcmSamples] at h
    rcases List.mem_cons.mp h with rfl | hm
    · exact sampleOf_range a c
    · exact ih hm

/-! ### Claim theorems -/

set_option maxHeartbeats 1600000 in
/-- C1: `encode(samples)` for mono input returns `44 + 2*length(samples)`
bytes whose first 44 bytes follow the RIFF/WAVE layout of the spec table
("RIFF", ChunkSize `36 + dataSize`, "WAVE", "fmt ", Subchunk1Size 16,
AudioFormat 1, NumChannels 1, SampleRate, ByteRate `sampleRate*2`,
BlockAlign 2, BitsPerSample 16, "data", Subchunk2Size `2*length(samples)`);
with `sampleRate=24000` and two samples of value `0.5` the container is
48 bytes, bytes 40–43 hold 4 (uint32 LE), and bytes 44–47 decode to two
int16 values 16384. -/
theorem encodeWav_header_layout (s : List FVal) (r : ℕ) :
    (encodeWav s r).length = 44 + 2 * s.length ∧
    (encodeWav s r).take 4 = [0x52, 0x49, 0x46, 0x46] ∧
    ((encodeWav s r).drop 4).take 4 = u32le (36 + 2 * s.length) ∧
    ((encodeWav s r).drop 8).take 4 = [0x57, 0x41, 0x56, 0x45] ∧
    ((encodeWav s r).drop 12).take 4 = [0x66, 0x6D, 0x74, 0x20] ∧
    ((encodeWav s r).drop 16).take 4 = u32le 16 ∧
    ((encodeWav s r).drop 20).take 2 = u16le 1 ∧
    ((encodeWav s r).drop 22).take 2 = u16le 1 ∧
    ((encodeWav s r).drop 24).take 4 = u32le r ∧
    ((encodeWav s r).drop 28).take 4 = u32le (r * 2) ∧
    ((encodeWav s r).drop 32).take 2 = u16le 2 ∧
    ((encodeWav s r).drop 34).take 2 = u16le 16 ∧
    ((encodeWav s r).drop 36).take 4 = [0x64, 0x61, 0x74, 0x61] ∧
    ((encodeWav s r).drop 40).take 4 = u32le (2 * s.length) ∧
    (encodeWav [.val (1/2), .val (1/2)] 24000).length = 48 ∧
    ((encodeWav [.val (1/2), .val (1/2)] 24000).drop 40).take 4 = [4, 0, 0, 0] ∧
    (encodeWav [.val (1/2), .val (1/2)] 24000).drop 44 =
      i16le 16384 ++ i16le 16384 ∧
    i16dec 0 64 = 16384 := by
  refine ⟨?_, rfl, rfl, rfl, rfl, rfl, rfl, rfl, rfl, rfl, rfl, rfl, rfl, rfl,
    ?_, by decide, ?_, by decide⟩
  · simp [encodeWav, wavHeader, u32le, u16le, pcmData_length]
    omega
  · simp [encodeWav, wavHeader, u32le, u16le, pcmData_length]
  · show pcmData [.val (1/2), .val (1/2)] = i16le 16384 ++ i16le 16384
    simp [pcmData, quantize_half]

/-- C3 (counterexample): the claim states that quantization clamps to
[-1, 1] and then computes `round(f * 32767)`, yet also that encoding
`-2.0` yields int16 `-32768`; under the clamp-then-round rule the code
produces `round(-1 * 32767) = -32767`, not `-32768`. -/
theorem quantize_neg_two_ne : quantize (.val (-2)) ≠ -32768 := by
  norm_num [quantize, clampUnit, round_eq]

/-- C3 (amended): per-sample quantization clamps `f` to [-1, 1] with NaN
treated as 0, then computes `round(f * 32767)` emitted as a signed
16-bit value; encoding `2.0` yields 32767, encoding `-2.0` yields
`-32767` (not `-32768`), encoding NaN yields 0, every emitted value fits
in the signed 16-bit range, and the encoder is total (never signals an
error). -/
theorem quantize_clamps_and_rounds (f : ℚ) (g : FVal) :
    quantize (.val 2) = 32767 ∧
    quantize (.val (-2)) = -32767 ∧
    quantize .nan = 0 ∧
    (-1 ≤ f → f ≤ 1 → quantize (.val f) = round (f * 32767)) ∧
    (-32768 ≤ quantize g ∧ quantize g ≤ 32767) := by
  refine ⟨by norm_num [quantize, clampUnit, round_eq],
    by norm_num [quantize, clampUnit, round_eq], rfl, ?_, quantize_range g⟩
  intro h1 h2
  have : clampUnit f = f := by
    simp only [clampUnit]
    rw [min_eq_right h2, max_eq_right h1]
  rw [quantize, this]

/-- C3 witness. -/
theorem quantize_clamps_and_rounds_spot :
    (-1 ≤ (1/2 : ℚ) ∧ (1/2 : ℚ) ≤ 1) ∧
    quantize (.val (1/2)) = round ((1/2 : ℚ) * 32767) :=
  ⟨⟨by norm_num, by norm_num⟩,
    (quantize_clamps_and_rounds (1/2) .nan).2.2.2.1 (by norm_num) (by norm_num)⟩

/-- C6: the WAV encoder is deterministic — identical `(samples,
sampleRate)` inputs give byte-for-byte identical containers — and the
44-byte header is fully determined by the sample rate and the number of
samples (the channel count is fixed at 1). -/
theorem encodeWav_deterministic (s₁ s₂ : List FVal) (r : ℕ) :
    encodeWav s₁ r = encodeWav s₁ r ∧
    (encodeWav s₁ r).take 44 = wavHeader r (2 * s₁.length) ∧
    (s₁.length = s₂.length →
      (encodeWav s₁ r).take 44 = (encodeWav s₂ r).take 44) := by
  have e : ∀ s : List FVal, (encodeWav s r).take 44 = wavHeader r (2 * s.length) :=
    fun s => rfl
  exact ⟨rfl, e s₁, fun h => by rw [e s₁, e s₂, h]⟩

/-- C6 witness. -/
theorem encodeWav_deterministic_spot :
    ([FVal.val 1, FVal.nan].length = [FVal.val 0, FVal.val 1].length) ∧
    (encodeWav [FVal.val 1, FVal.nan] 8000).take 44 =
      (encodeWav [FVal.val 0, FVal.val 1] 8000).take 44 :=
  ⟨rfl, (encodeWav_deterministic [FVal.val 1, FVal.nan] [FVal.val 0, FVal.val 1]
    8000).2.2 rfl⟩

/-- C4: `interpret(b)` yields `floor(length(b)/2)` samples; when
`length(b)` is odd the trailing byte is discarded without error, and the
result equals `interpret` of `b` with its last byte removed. -/
theorem pcmSamples_length_floor (b : List ℕ) :
    (pcmSamples b).length = b.length / 2 ∧
    (b.length % 2 = 1 → pcmSamples b = pcmSamples b.dropLast) := by
  induction b using pcm_two_step with
  | h0 => exact ⟨rfl, fun _ => rfl⟩
  | h1 a => exact ⟨by simp [pcmSamples], fun _ => rfl⟩
  | h2 a c l ih =>
    constructor
    · rw [pcmSamples]
      simp only [List.length_cons, ih.1]
      omega
    · intro h
      cases l with
      | nil => simp at h
      | cons d l₂ =>
        have h₂ : (d :: l₂).length % 2 = 1 := by
          simp only [List.length_cons] at h ⊢
          omega
        show pcmSamples (a :: c :: d :: l₂) = pcmSamples (a :: c :: (d :: l₂).dropLast)
        rw [pcmSamples, pcmSamples, ih.2 h₂]

/-- C4 witness. -/
theorem pcmSamples_length_floor_spot :
    (pcmSamples [0, 64, 9]).length = 1 ∧
    ([0, 64, 9] : List ℕ).length % 2 = 1 ∧
    pcmSamples [0, 64, 9] = pcmSamples ([0, 64, 9] : List ℕ).dropLast :=
  ⟨(pcmSamples_length_floor [0, 64, 9]).1, rfl,
    (pcmSamples_length_floor [0, 64, 9]).2 rfl⟩

/-- C5: each byte pair is decoded as a little-endian signed 16-bit
integer `v` normalized to `v / 32768.0`; bytes `[0x00, 0x80]` yield
`-1.0`, bytes `[0xFF, 0x7F]` yield `32767/32768`, and every produced
sample lies in `[-1, 32767/32768]`. -/
theorem sampleOf_normalization (b0 b1 : ℕ) (bytes : List ℕ) (q : ℚ) :
    sampleOf b0 b1 = (i16dec b0 b1 : ℚ) / 32768 ∧
    sampleOf 0x00 0x80 = -1 ∧
    sampleOf 0xFF 0x7F = 32767 / 32768 ∧
    (-1 ≤ sampleOf b0 b1 ∧ sampleOf b0 b1 ≤ 32767 / 32768) ∧
    (q ∈ pcmSamples bytes → -1 ≤ q ∧ q ≤ 32767 / 32768) := by
  refine ⟨rfl, ?_, ?_, sampleOf_range b0 b1, mem_pcmSamples_range bytes q⟩
  · norm_num [sampleOf, i16dec]
  · norm_num [sampleOf, i16dec]

/-- C5 witness. -/
theorem sampleOf_normalization_spot :
    (32767 / 32768 : ℚ) ∈ pcmSamples [0xFF, 0x7F] ∧
    (-1 ≤ (32767 / 32768 : ℚ) ∧ (32767 / 32768 : ℚ) ≤ 32767 / 32768) := by
  have hm : (32767 / 32768 : ℚ) ∈ pcmSamples [0xFF, 0x7F] := by
    have : sampleOf 0xFF 0x7F = 32767 / 32768 := by norm_num [sampleOf, i16dec]
    rw [pcmSamples, this]
    exact List.mem_singleton.mpr rfl
  exact ⟨hm, (sampleOf_normalization 0 0 [0xFF, 0x7F] (32767 / 32768)).2.2.2.2 hm⟩

/-- C7 (counterexample): at `f = 3276649/3276700 ∈ [-1, 1]` the encoder
produces int16 `32766`, and `|32766/32768 - f| > 1/32768`: the claimed
round-trip error bound `1/32768` fails. -/
theorem quantize_roundtrip_exceeds :
    (-1 ≤ (3276649 / 3276700 : ℚ) ∧ (3276649 / 3276700 : ℚ) ≤ 1) ∧
    quantize (.val (3276649 / 3276700)) = 32766 ∧
    1 / 32768 <
      |(quantize (.val (3276649 / 3276700)) : ℚ) / 32768 - 3276649 / 3276700| := by
  have hq : quantize (.val (3276649 / 3276700)) = 32766 := by
    norm_num [quantize, clampUnit, round_eq]
  refine ⟨⟨by norm_num, by norm_num⟩, hq, ?_⟩
  rw [hq, abs_of_neg (by norm_num)]
  norm_num

/-- C7 (amended): for every sample value `f` in `[-1, 1]`, dividing the
int16 produced by the encoder back by the normalization constant 32768
yields a value within `3/65536` of `f` (the claimed bound `1/32768` is
exceeded for some inputs; `3/65536` is the bound the clamp-then-round
rule guarantees). -/
theorem quantize_roundtrip_bound (f : ℚ) (h1 : -1 ≤ f) (h2 : f ≤ 1) :
    |(quantize (.val f) : ℚ) / 32768 - f| ≤ 3 / 65536 := by
  have hc : clampUnit f = f := by
    simp only [clampUnit]
    rw [min_eq_right h2, max_eq_right h1]
  have hq : quantize (.val f) = round (f * 32767) := by rw [quantize, hc]
  have hr : |f * 32767 - round (f * 32767)| ≤ 1 / 2 := abs_sub_round _
  have habsf : |f| ≤ 1 := abs_le.mpr ⟨h1, h2⟩
  rw [hq]
  have key : |(round (f * 32767) : ℚ) - 32768 * f| ≤ 3 / 2 := by
    have e : (round (f * 32767) : ℚ) - 32768 * f =
        -(f * 32767 - round (f * 32767)) + -f := by ring
    calc |(round (f * 32767) : ℚ) - 32768 * f|
        = |(-(f * 32767 - round (f * 32767)) + -f)| := by rw [e]
      _ ≤ |(-(f * 32767 - round (f * 32767)))| + |(-f)| := abs_add _ _
      _ = |f * 32767 - round (f * 32767)| + |f| := by rw [abs_neg, abs_neg]
      _ ≤ 1 / 2 + 1 := add_le_add hr habsf
      _ = 3 / 2 := by norm_num
  have e2 : (round (f * 32767) : ℚ) / 32768 - f =
      ((round (f * 32767) : ℚ) - 32768 * f) / 32768 := by ring
  rw [e2, abs_div, abs_of_pos (by norm_num : (0 : ℚ) < 32768)]
  linarith

/-- C7 witness. -/
theorem quantize_roundtrip_bound_spot :
    (-1 ≤ (0 : ℚ) ∧ (0 : ℚ) ≤ 1) ∧
    |(quantize (.val 0) : ℚ) / 32768 - 0| ≤ 3 / 65536 :=
  ⟨⟨by norm_num, by norm_num⟩,
    quantize_roundtrip_bound 0 (by norm_num) (by norm_num)⟩

/-- C8: `interpret` signals a `FormatError` iff `sampleRate ≤ 0` or
`channelCount < 1`; under `sampleRate > 0` and `channelCount ≥ 1` it
succeeds on every byte sequence, including the empty one. -/
theorem interpret_formatError_iff (bytes : List ℕ) (sr cc : ℤ) :
    (interpret bytes sr cc = .error .invalidParams ↔ sr ≤ 0 ∨ cc < 1) ∧
    (0 < sr → 1 ≤ cc → interpret bytes sr cc = .ok (pcmSamples bytes)) ∧
    interpret [] 24000 1 = .ok [] := by
  refine ⟨?_, ?_, by norm_num [interpret, pcmSamples]⟩
  · unfold interpret
    split
    · simpa
    · rename_i hcond
      simpa using hcond
  · intro hsr hcc
    unfold interpret
    rw [if_neg (by omega)]

/-- C8 witness. -/
theorem interpret_formatError_iff_spot :
    (0 : ℤ) < 24000 ∧ (1 : ℤ) ≤ 1 ∧
    interpret [0, 64, 9] 24000 1 = .ok (pcmSamples [0, 64, 9]) :=
  ⟨by norm_num, le_refl 1,
    (interpret_formatError_iff [0, 64, 9] 24000 1).2.1 (by norm_num) (le_refl 1)⟩

theorem interpret_default_ok (bytes : List ℕ) :
    interpret bytes 24000 1 = .ok (pcmSamples bytes) := by
  unfold interpret
  rw [if_neg (by norm_num)]

/-- C2 (counterexample): starting from a state holding an artifact, a
failing generation request does not leave `audioData` unchanged — the
handler clears it to `none` at the start of the request. -/
theorem handleGenerateAudio_failure_not_preserving :
    (handleGenerateAudio true (.error "boom")
        ⟨some ⟨[], [7]⟩, none, false, false⟩).audioData ≠
      (⟨some ⟨[], [7]⟩, none, false, false⟩ : AppState).audioData := by
  simp [handleGenerateAudio]

/-- C2 (amended): a failing generation request is scoped to that
request — the handler records the error and clears the loading flag —
but the previously existing artifact is not preserved: `audioData` is
cleared to `none` at the start of the request, so after the error is
caught it is `none` rather than the prior artifact. -/
theorem handleGenerateAudio_failure_state (hasCtx : Bool) (msg : String)
    (st : AppState) :
    (handleGenerateAudio hasCtx (.error msg) st).audioData = none ∧
    (handleGenerateAudio hasCtx (.error msg) st).error = some msg ∧
    (handleGenerateAudio hasCtx (.error msg) st).isLoading = false := by
  simp [handleGenerateAudio]

/-- C9: a successful request creates the whole artifact in one step
from a single decode pass: `audioData` is replaced at once by the pair
of the decoded sample buffer and the WAV container encoded from channel
0 of that very buffer; every stored artifact satisfies
`blob = encodeWav(buffer)`; and the artifact depends on the raw bytes
only through the decoded sample sequence. -/
theorem artifact_single_decode_pass (st st₂ : AppState)
    (bytes bytes₂ : List ℕ) :
    (handleGenerateAudio true (.ok bytes) st).audioData =
      some ⟨pcmSamples bytes,
        encodeWav ((pcmSamples bytes).map FVal.val) 24000⟩ ∧
    (∀ art, (handleGenerateAudio true (.ok bytes) st).audioData = some art →
      art.blob = encodeWav (art.buffer.map FVal.val) 24000) ∧
    (pcmSamples bytes = pcmSamples bytes₂ →
      (handleGenerateAudio true (.ok bytes) st).audioData =
        (handleGenerateAudio true (.ok bytes₂) st₂).audioData) := by
  have h : ∀ (s : AppState) (bs : List ℕ),
      (handleGenerateAudio true (.ok bs) s).audioData =
        some ⟨pcmSamples bs, encodeWav ((pcmSamples bs).map FVal.val) 24000⟩ := by
    intro s bs
    simp [handleGenerateAudio, interpret_default_ok]
  refine ⟨h st bytes, ?_, ?_⟩
  · intro art hart
    rw [h st bytes] at hart
    cases Option.some.inj hart
    rfl
  · intro he
    rw [h st bytes, h st₂ bytes₂, he]

/-- C9 witness. -/
theorem artifact_single_decode_pass_spot :
    pcmSamples [0, 64] = pcmSamples [0, 64, 9] ∧
    (handleGenerateAudio true (.ok [0, 64])
        ⟨none, none, false, false⟩).audioData =
      (handleGenerateAudio true (.ok [0, 64, 9])
        ⟨some ⟨[], []⟩, some "e", true, true⟩).audioData :=
  ⟨rfl, (artifact_single_decode_pass ⟨none, none, false, false⟩
    ⟨some ⟨[], []⟩, some "e", true, true⟩ [0, 64] [0, 64, 9]).2.2 rfl⟩

/-- C10: blank input (empty after `trim`) makes `generateSpeech` throw
"Input text cannot be empty." without consulting the remote service
(the result is the same for every `api`), and that specific message is
not replaced by the generic failure message; whenever `generateSpeech`
returns a payload at all, the payload is a non-empty string. -/
theorem generateSpeech_contract (text voice : String)
    (api api₂ : String → String → Except String (Option String))
    (b64 : String) :
    (isBlank text = true →
      generateSpeech text voice api = .error emptyInputMessage ∧
      generateSpeech text voice api = generateSpeech text voice api₂ ∧
      generateSpeech text voice api ≠ .error genericFailureMessage) ∧
    (generateSpeech text voice api = .ok b64 → b64 ≠ "") := by
  constructor
  · intro h
    refine ⟨by simp [generateSpeech, h], by simp [generateSpeech, h], ?_⟩
    simp only [generateSpeech, h, if_pos]
    intro hcontra
    have : emptyInputMessage = genericFailureMessage :=
      Except.error.inj hcontra
    simp [emptyInputMessage, genericFailureMessage] at this
  · intro hok hb
    subst hb
    unfold generateSpeech at hok
    split at hok
    · exact Except.noConfusion hok
    · split at hok
      · exact Except.noConfusion hok
      · exact Except.noConfusion hok
      · rename_i b hbne
        split at hok
        · exact Except.noConfusion hok
        · rename_i hne
          exact hne (Except.ok.inj hok)

/-- C10 witness. -/
theorem generateSpeech_contract_spot :
    (isBlank "  " = true) ∧
    generateSpeech "  " "Kore" (fun _ _ => .ok (some "abc")) =
      .error emptyInputMessage ∧
    generateSpeech "a" "Kore" (fun _ _ => .ok (some "abc")) = .ok "abc" ∧
    ("abc" : String) ≠ "" :=
  ⟨by decide,
    ((generateSpeech_contract "  " "Kore" (fun _ _ => .ok (some "abc"))
      (fun _ _ => .ok (some "abc")) "abc").1 (by decide)).1,
    by simp [generateSpeech, isBlank],
    (generateSpeech_contract "a" "Kore" (fun _ _ => .ok (some "abc"))
      (fun _ _ => .ok (some "abc")) "abc").2
      (by simp [generateSpeech, isBlank])⟩

end TTS
